import Mathlib

/-!
Verification of `mlir-auto-init.cpp` (google/llvm-bazel, mlir overlay).

The translation unit contains a single file-scoped static variable:

  static bool auto_init = []() {
    registerAllDialects();
    registerAllPasses();
    return true;
  }();

We embed the ambient process-wide registries as explicit state, the two
external registration entry points (declared in `mlir/InitAllDialects.h`
and `mlir/InitAllPasses.h`, which are not part of this repository) are
modelled from the spec, and the initializing lambda becomes an explicit
state transformer.  A second, syntactic view records the sequence of
actions the lambda performs, and a small step relation models the life of
a process that links the translation unit.
-/

namespace mlir

/-- Modelled from the spec: the linked framework version.  The spec speaks
of "all built-ins the linked version of the framework defines" and
guarantees that querying a populated registry "returns a non-empty set",
so the catalogs of built-in dialect and pass identifiers are non-empty
lists of identifiers. -/
structure Framework where
  builtinDialects : List String
  builtinPasses : List String
  builtinDialects_ne : builtinDialects ≠ []
  builtinPasses_ne : builtinPasses ≠ []

/-- The two ambient process-wide registries, each a catalog of registered
identifiers (the factories they map to play no role in the claims). -/
structure Registries where
  dialects : List String
  passes : List String
deriving DecidableEq, Repr

/-- Modelled from the spec: a registry's own single-identifier registration
call.  The spec delegates idempotency to the external registries
("idempotency of the registries' own registration calls is the
responsibility of those external registries"), so registering an already
present identifier leaves the registry unchanged. -/
def registerOne (i : String) (r : List String) : List String :=
  if i ∈ r then r else r ++ [i]

/-- Registers a whole catalog of identifiers, one at a time. -/
def registerList (ids : List String) (r : List String) : List String :=
  ids.foldl (fun acc i => registerOne i acc) r

/-- Modelled from the spec: `registerAllDialects` from
`mlir/InitAllDialects.h` (not in this repository) — the zero-argument
entry point that registers every built-in dialect of the linked framework
into the ambient dialect registry. -/
def registerAllDialects (fw : Framework) (s : Registries) : Registries :=
  { s with dialects := registerList fw.builtinDialects s.dialects }

/-- Modelled from the spec: `registerAllPasses` from
`mlir/InitAllPasses.h` (not in this repository) — the zero-argument entry
point that registers every built-in pass of the linked framework into the
ambient pass registry. -/
def registerAllPasses (fw : Framework) (s : Registries) : Registries :=
  { s with passes := registerList fw.builtinPasses s.passes }

/-- The body of the initializing lambda of `mlir-auto-init.cpp`, with the
two external registration entry points abstracted as arbitrary registry
transformers: it calls the first, then the second, and returns `true`. -/
def autoInitGen (regD regP : Registries → Registries) (s : Registries) :
    Registries × Bool :=
  (regP (regD s), true)

/-- The initializing lambda of `auto_init` in `mlir-auto-init.cpp`: it
calls `registerAllDialects()`, then `registerAllPasses()`, and returns
`true`; the `Bool` component is the value stored into `auto_init`. -/
def auto_init (fw : Framework) (s : Registries) : Registries × Bool :=
  autoInitGen (registerAllDialects fw) (registerAllPasses fw) s

/-- One action performed during static initialization: a call to a named
entry point with a list of arguments, or the write of the file-scoped
flag. -/
inductive InitEvent where
  | call (callee : String) (args : List String)
  | writeFlag (value : Bool)
deriving DecidableEq, Repr

/-- Whether an action is a registration call. -/
def InitEvent.isCall : InitEvent → Bool
  | .call _ _ => true
  | .writeFlag _ => false

/-- Whether an action is the write of the file-scoped flag. -/
def InitEvent.isWriteFlag : InitEvent → Bool
  | .call _ _ => false
  | .writeFlag _ => true

/-- The sequence of actions the static initializer of `auto_init`
performs, read off line by line from `mlir-auto-init.cpp`: the call
`registerAllDialects()`, the call `registerAllPasses()`, and the store of
the lambda's return value `true` into `auto_init`. -/
def autoInitEvents : List InitEvent :=
  [InitEvent.call "registerAllDialects" [],
   InitEvent.call "registerAllPasses" [],
   InitEvent.writeFlag true]

/-- The calls among a list of actions, as callee name with arguments. -/
def callsOf (es : List InitEvent) : List (String × List String) :=
  es.foldr
    (fun e acc =>
      match e with
      | InitEvent.call f a => (f, a) :: acc
      | InitEvent.writeFlag _ => acc)
    []

/-- Registration phase of a process linking the translation unit. -/
inductive Phase where
  | Unregistered
  | Registered
deriving DecidableEq, Repr

/-- The state of a process linking the translation unit: its phase, the
two ambient registries, the file-scoped flag `auto_init` (`none` before
its static initializer has stored into it), and an abstraction of every
other piece of program state. -/
structure ProcState where
  phase : Phase
  regs : Registries
  flag : Option Bool
  other : Nat
deriving DecidableEq, Repr

/-- The effect of running the static initializer of `auto_init` on the
process state: the lambda body updates the registries, its return value
is stored into the flag, and the phase becomes `Registered`. -/
def staticInitStep (fw : Framework) (s : ProcState) : ProcState :=
  { phase := Phase.Registered
    regs := (auto_init fw s.regs).1
    flag := some (auto_init fw s.regs).2
    other := s.other }

/-- One step of a process that links the translation unit exactly once:
static initialization runs first (from the `Unregistered` phase), and
ordinary program logic runs afterwards.  User code may change any other
program state and may itself register into the ambient registries, but it
has no access to the file-scoped flag. -/
inductive Step (fw : Framework) : ProcState → ProcState → Prop
  | staticInit (s : ProcState) (h : s.phase = Phase.Unregistered) :
      Step fw s (staticInitStep fw s)
  | userStep (s : ProcState) (r : Registries) (o : Nat)
      (h : s.phase = Phase.Registered) :
      Step fw s { s with regs := r, other := o }

/-- An execution trace: consecutive states are related by `Step`. -/
def IsTrace (fw : Framework) : List ProcState → Prop
  | s :: t :: rest => Step fw s t ∧ IsTrace fw (t :: rest)
  | _ => True

/-- A state at process start, before static initialization: phase
`Unregistered` and the flag not yet stored into. -/
def InitialState (s : ProcState) : Prop :=
  s.phase = Phase.Unregistered ∧ s.flag = none

/-- Number of `Unregistered`-to-`Registered` transitions along a trace. -/
def regTransitions : List ProcState → Nat
  | s :: t :: rest =>
      (if s.phase = Phase.Unregistered ∧ t.phase = Phase.Registered
       then 1 else 0) + regTransitions (t :: rest)
  | _ => 0

/-- Number of steps along a trace that change the flag. -/
def flagWrites : List ProcState → Nat
  | s :: t :: rest =>
      (if t.flag = s.flag then 0 else 1) + flagWrites (t :: rest)
  | _ => 0

/-! Basic lemmas about the modelled registry operations. -/

theorem mem_registerOne_of_mem {a i : String} {r : List String}
    (h : a ∈ r) : a ∈ registerOne i r := by
  unfold registerOne
  split
  · exact h
  · exact List.mem_append_left _ h

theorem self_mem_registerOne (i : String) (r : List String) :
    i ∈ registerOne i r := by
  unfold registerOne
  split
  · assumption
  · exact List.mem_append_right _ (List.mem_singleton.mpr rfl)

theorem registerOne_eq_of_mem {i : String} {r : List String}
    (h : i ∈ r) : registerOne i r = r := by
  unfold registerOne
  exact if_pos h

theorem mem_registerList_of_mem {a : String} {ids r : List String}
    (h : a ∈ r) : a ∈ registerList ids r := by
  induction ids generalizing r with
  | nil => exact h
  | cons i ids ih =>
      exact ih (mem_registerOne_of_mem h)

theorem mem_registerList_of_mem_ids {a : String} {ids r : List String}
    (h : a ∈ ids) : a ∈ registerList ids r := by
  induction ids generalizing r with
  | nil => cases h
  | cons i ids ih =>
      rcases List.mem_cons.mp h with h1 | h2
      · subst h1
        show a ∈ registerList ids (registerOne a r)
        exact mem_registerList_of_mem (self_mem_registerOne a r)
      · exact ih h2

theorem registerList_eq_of_subset {ids r : List String}
    (h : ∀ a ∈ ids, a ∈ r) : registerList ids r = r := by
  induction ids with
  | nil => rfl
  | cons i ids ih =>
      have hi : i ∈ r := h i (List.mem_cons_self i ids)
      show registerList ids (registerOne i r) = r
      rw [registerOne_eq_of_mem hi]
      exact ih fun a ha => h a (List.mem_cons_of_mem i ha)

theorem registerList_idem (ids r : List String) :
    registerList ids (registerList ids r) = registerList ids r :=
  registerList_eq_of_subset fun _ ha => mem_registerList_of_mem_ids ha

theorem registerList_ne_nil {ids r : List String} (h : ids ≠ []) :
    registerList ids r ≠ [] := by
  cases ids with
  | nil => exact absurd rfl h
  | cons i ids =>
      intro hEmpty
      have : i ∈ registerList (i :: ids) r :=
        mem_registerList_of_mem_ids (List.mem_cons_self i ids)
      rw [hEmpty] at this
      cases this

/-! Basic lemmas about the process step relation. -/

theorem step_registered_invariant {fw : Framework} {s t : ProcState}
    (h : Step fw s t) (hs : s.phase = Phase.Registered) :
    t.phase = Phase.Registered ∧ t.flag = s.flag := by
  cases h with
  | staticInit hu => rw [hs] at hu; cases hu
  | userStep r o _ => exact ⟨hs, rfl⟩

theorem trace_registered_invariant {fw : Framework} :
    ∀ {tr : List ProcState}, IsTrace fw tr →
      ∀ {s : ProcState}, tr.head? = some s → s.phase = Phase.Registered →
        regTransitions tr = 0 ∧ ∀ t ∈ tr, t.flag = s.flag := by
  intro tr
  induction tr with
  | nil => intro _ s hs; cases hs
  | cons a rest ih =>
      intro htr s hs hreg
      cases hs
      cases rest with
      | nil =>
          refine ⟨rfl, ?_⟩
          intro t ht
          rcases List.mem_singleton.mp ht with h1
          rw [h1]
      | cons b rest2 =>
          obtain ⟨hstep, htr2⟩ := htr
          obtain ⟨hb, hbf⟩ := step_registered_invariant hstep hreg
          obtain ⟨hcount, hflags⟩ := ih htr2 rfl hb
          constructor
          · show (if a.phase = Phase.Unregistered ∧ b.phase = Phase.Registered
                  then 1 else 0) + regTransitions (b :: rest2) = 0
            rw [hcount]
            rw [if_neg]
            intro hcontra
            rw [hreg] at hcontra
            cases hcontra.1
          · intro t ht
            rcases List.mem_cons.mp ht with h1 | h2
            · rw [h1]
            · rw [hflags t h2, hbf]

theorem trace_flag_const_of_registered {fw : Framework} :
    ∀ {tr : List ProcState}, IsTrace fw tr →
      ∀ {s : ProcState}, tr.head? = some s → s.phase = Phase.Registered →
        flagWrites tr = 0 := by
  intro tr
  induction tr with
  | nil => intro _ s hs; cases hs
  | cons a rest ih =>
      intro htr s hs hreg
      cases hs
      cases rest with
      | nil => rfl
      | cons b rest2 =>
          obtain ⟨hstep, htr2⟩ := htr
          obtain ⟨hb, hbf⟩ := step_registered_invariant hstep hreg
          show (if b.flag = a.flag then 0 else 1) + flagWrites (b :: rest2) = 0
          rw [if_pos hbf, ih htr2 rfl hb]

end mlir

namespace mlir

/-! Claim theorems. -/

/-- C1: for a process linking the translation unit, after the static
initializer in `mlir-auto-init.cpp` has run (the only step possible from
the `Unregistered` phase, hence before any ordinary program logic), the
dialect registry contains all built-in dialects and the pass registry all
built-in passes of the linked framework; in particular both registries are
non-empty. -/
theorem auto_init_populates_registries (fw : Framework) (s t : ProcState)
    (hstep : Step fw s t) (hphase : s.phase = Phase.Unregistered) :
    (∀ d ∈ fw.builtinDialects, d ∈ t.regs.dialects) ∧
    (∀ p ∈ fw.builtinPasses, p ∈ t.regs.passes) ∧
    t.regs.dialects ≠ [] ∧ t.regs.passes ≠ [] := by
  cases hstep with
  | staticInit hu =>
      refine ⟨?_, ?_, ?_, ?_⟩
      · intro d hd
        exact mem_registerList_of_mem_ids hd
      · intro p hp
        exact mem_registerList_of_mem_ids hp
      · exact registerList_ne_nil fw.builtinDialects_ne
      · exact registerList_ne_nil fw.builtinPasses_ne
  | userStep r o hreg =>
      rw [hphase] at hreg
      cases hreg

/-- C2: the static initializer performs exactly the fixed two-step
sequence: the `registerAllDialects` entry point first, the
`registerAllPasses` entry point second, each exactly once, and no other
registration calls. -/
theorem auto_init_two_step_sequence :
    callsOf autoInitEvents =
      [("registerAllDialects", []), ("registerAllPasses", [])] := by
  rfl

theorem regTransitions_le_one {fw : Framework} :
    ∀ {tr : List ProcState}, IsTrace fw tr → regTransitions tr ≤ 1 := by
  intro tr
  induction tr with
  | nil => intro _; exact Nat.zero_le 1
  | cons a rest ih =>
      intro htr
      cases rest with
      | nil => exact Nat.zero_le 1
      | cons b rest2 =>
          obtain ⟨hstep, htr2⟩ := htr
          show (if a.phase = Phase.Unregistered ∧ b.phase = Phase.Registered
                then 1 else 0) + regTransitions (b :: rest2) ≤ 1
          by_cases hc : a.phase = Phase.Unregistered ∧ b.phase = Phase.Registered
          · rw [if_pos hc, (trace_registered_invariant htr2 rfl hc.2).1]
          · rw [if_neg hc, Nat.zero_add]
            exact ih htr2

/-- C3: in every execution of a process linking the translation unit once,
the `Unregistered`-to-`Registered` transition happens at most once along
any trace, and no reachable step ever returns a `Registered` state to
`Unregistered`. -/
theorem registration_at_most_once (fw : Framework) (tr : List ProcState)
    (h : IsTrace fw tr) :
    regTransitions tr ≤ 1 ∧
    ∀ s t, Step fw s t → s.phase = Phase.Registered →
      t.phase = Phase.Registered :=
  ⟨regTransitions_le_one h,
   fun _ _ hst hreg => (step_registered_invariant hst hreg).1⟩

/-- C4: starting from an initial state, the file-scoped flag is written
exactly once — by the very first step, the static initializer — holds
`some true` in every later state of the trace, and the static initializer
itself never reads the flag (its result is unchanged under any value of
the flag). -/
theorem flag_written_once (fw : Framework) (s : ProcState)
    (rest : List ProcState) (htr : IsTrace fw (s :: rest))
    (hinit : InitialState s) :
    (rest ≠ [] → flagWrites (s :: rest) = 1) ∧
    (∀ t ∈ rest, t.flag = some true) ∧
    (∀ b : Option Bool,
      staticInitStep fw { s with flag := b } = staticInitStep fw s) := by
  obtain ⟨hphase, hflag⟩ := hinit
  cases rest with
  | nil =>
      refine ⟨fun hne => absurd rfl hne, ?_, fun b => rfl⟩
      intro t ht
      cases ht
  | cons b rest2 =>
      obtain ⟨hstep, htr2⟩ := htr
      cases hstep with
      | staticInit hu =>
          have hbphase : (staticInitStep fw s).phase = Phase.Registered := rfl
          have hbflag : (staticInitStep fw s).flag = some true := rfl
          refine ⟨fun _ => ?_, ?_, fun b => rfl⟩
          · show (if (staticInitStep fw s).flag = s.flag then 0 else 1) +
              flagWrites (staticInitStep fw s :: rest2) = 1
            rw [trace_flag_const_of_registered htr2 rfl hbphase]
            rw [if_neg]
            rw [hbflag, hflag]
            intro hcontra
            cases hcontra
          · intro t ht
            have := (trace_registered_invariant htr2 rfl hbphase).2 t ht
            rw [this, hbflag]
      | userStep r o hreg =>
          rw [hphase] at hreg
          cases hreg

/-- C5: the static initializer's only effects are on the two registries
and its own flag; every other piece of program state is unchanged by its
execution. -/
theorem auto_init_frame_other_unchanged (fw : Framework) (s : ProcState) :
    (staticInitStep fw s).other = s.other :=
  rfl

/-- C6: the shim surfaces no errors: whatever the two registration entry
points do to the registries, the initializing lambda inspects no status
from them and its result is the constant `true`. -/
theorem auto_init_surfaces_no_errors
    (regD regP : Registries → Registries) (s : Registries) :
    (autoInitGen regD regP s).2 = true :=
  rfl

/-- C7: both registration entry points are invoked with zero arguments:
every call the static initializer performs carries an empty argument
list. -/
theorem auto_init_calls_zero_arguments :
    (callsOf autoInitEvents).all (fun c => c.2.isEmpty) = true := by
  rfl

/-- C8: running the registration sequence twice in the same process is
idempotent at the observable level — the second run terminates without
error and leaves the registries (and the flag value) exactly as after a
single run. -/
theorem auto_init_idempotent_on_registries (fw : Framework)
    (s : Registries) :
    auto_init fw (auto_init fw s).1 = auto_init fw s := by
  simp only [auto_init, autoInitGen, registerAllDialects, registerAllPasses]
  rw [registerList_idem, registerList_idem]

/-- C9: after static initialization the flag `auto_init` holds `true`: the
initializing lambda returns the constant `true` unconditionally, so the
flag's stored value is `some true`. -/
theorem auto_init_flag_true (fw : Framework) (s : ProcState) :
    (staticInitStep fw s).flag = some true ∧
    (auto_init fw s.regs).2 = true :=
  ⟨rfl, rfl⟩

/-- C10: the static initializer is deterministic: two runs that start from
equal registry states (with the same framework linked) produce equal
registry states and equal flag values, regardless of any other state. -/
theorem auto_init_deterministic (fw : Framework) (s₁ s₂ : ProcState)
    (h : s₁.regs = s₂.regs) :
    (staticInitStep fw s₁).regs = (staticInitStep fw s₂).regs ∧
    (staticInitStep fw s₁).flag = (staticInitStep fw s₂).flag := by
  constructor <;> simp [staticInitStep, h]

/-! Concrete instances for the witnesses. -/

/-- A concrete linked framework with one built-in dialect and one built-in
pass. -/
def fw0 : Framework :=
  ⟨["func"], ["canonicalize"], List.cons_ne_nil _ _, List.cons_ne_nil _ _⟩

/-- A concrete process-start state: empty registries, flag not yet
stored. -/
def s0 : ProcState :=
  ⟨Phase.Unregistered, ⟨[], []⟩, none, 0⟩

theorem auto_init_populates_registries_witness :
    "func" ∈ (staticInitStep fw0 s0).regs.dialects ∧
    (staticInitStep fw0 s0).regs.passes ≠ [] := by
  have h := auto_init_populates_registries fw0 s0 (staticInitStep fw0 s0)
    (Step.staticInit s0 rfl) rfl
  exact ⟨h.1 "func" (List.mem_cons_self _ _), h.2.2.2⟩

theorem registration_at_most_once_witness :
    regTransitions [s0, staticInitStep fw0 s0] ≤ 1 :=
  (registration_at_most_once fw0 [s0, staticInitStep fw0 s0]
    ⟨Step.staticInit s0 rfl, True.intro⟩).1

theorem flag_written_once_witness :
    flagWrites [s0, staticInitStep fw0 s0] = 1 :=
  (flag_written_once fw0 s0 [staticInitStep fw0 s0]
    ⟨Step.staticInit s0 rfl, True.intro⟩ ⟨rfl, rfl⟩).1
    (List.cons_ne_nil _ _)

theorem auto_init_deterministic_witness :
    (staticInitStep fw0 s0).regs =
      (staticInitStep fw0 { s0 with other := 5 }).regs :=
  (auto_init_deterministic fw0 s0 { s0 with other := 5 } rfl).1

end mlir
